import Mathlib

/-!
A verification development for the transposition-cache subsystem of the
rustic chess engine: the 128-bit monotonic board hash
(`src/board/monotonic_hash.rs`) and the two-level transposition cache
(`src/engine/transposition.rs`).

Machine integers are modelled as `Nat` (unsigned) or `Int` (signed), with
wrapping taken modulo `2^64` exactly where the Rust release build wraps.
All definitions are executable so that concrete runs of the code can be
settled by `decide`.
-/

namespace Rustic

/-- `2^64`, the modulus of `u64` and (on the targets rustic supports) `usize`. -/
def U64 : Nat := 2 ^ 64

/-- `2^32`, the modulus of `u32`. -/
def U32 : Nat := 2 ^ 32

/-- Wrapping `u64` addition. -/
def wadd (a b : Nat) : Nat := (a + b) % U64

/-- Wrapping `u64` multiplication. -/
def wmul (a b : Nat) : Nat := (a * b) % U64

/-- Wrapping `u64`/`usize` subtraction (two-complement behaviour of the
release build; both arguments are first reduced modulo `2^64`). -/
def wsub (a b : Nat) : Nat := (a % U64 + (U64 - b % U64)) % U64

/-- Fuelled helper for `count_ones`: adds the low `fuel` bits of `n`. -/
def popAux : Nat → Nat → Nat
  | 0, _ => 0
  | fuel + 1, n => n % 2 + popAux fuel (n / 2)

/-- `u64::count_ones`: population count of the low 64 bits. -/
def count_ones (n : Nat) : Nat := popAux 64 (n % U64)

/-! ## The monotonic hash (`src/board/monotonic_hash.rs`) -/

/-- `count_combinations(n, r)` from `monotonic_hash.rs`: note that the
source divides each factor separately (`combos *= (n - i + 1) / i`),
so each factor is truncated before being multiplied in. -/
def count_combinations (n r : Nat) : Nat :=
  if n < r then 0
  else (List.range r).foldl (fun combos i0 =>
    let i := i0 + 1
    wmul combos ((n - i + 1) / i)) 1

/-- The `CHOOSE_OF_48` table of `monotonic_hash.rs`. -/
def CHOOSE_OF_48 : List Nat :=
  [count_combinations 48 0,
   count_combinations 48 1,
   count_combinations 48 2,
   count_combinations 48 3,
   count_combinations 48 4,
   count_combinations 48 5,
   count_combinations 48 6,
   count_combinations 48 7,
   count_combinations 48 8]

/-- `TOTAL_COMBINATIONS = CHOOSE_OF_48.iter().sum()`. -/
def TOTAL_COMBINATIONS : Nat := CHOOSE_OF_48.foldl (· + ·) 0

/-- The board state consumed by `monotonic_hash`: one bitboard per
(piece, side) pair as read through `get_pieces`, the castling byte and the
optional en-passant square from `game_state`. -/
structure Board where
  whitePawns : Nat
  blackPawns : Nat
  whiteKnights : Nat
  blackKnights : Nat
  whiteBishops : Nat
  blackBishops : Nat
  whiteRooks : Nat
  blackRooks : Nat
  whiteQueens : Nat
  blackQueens : Nat
  castling : Nat
  en_passant : Option Nat
deriving DecidableEq

def DARK_SQUARES : Nat := 0xAA55AA55AA55AA55

/-- `!DARK_SQUARES` on `u64`. -/
def LIGHT_SQUARES : Nat := (U64 - 1) - DARK_SQUARES

/-- The per-side weighted piece key of `monotonic_hash`. -/
def pieces_key (knights bishops rooks queens : Nat) : Nat :=
  let light_bishops := count_ones (bishops &&& LIGHT_SQUARES)
  let dark_bishops := count_ones (bishops &&& DARK_SQUARES)
  count_ones rooks
    + 11 * count_ones knights
    + 11 * 11 * light_bishops
    + 11 * 11 * 10 * dark_bishops
    + 11 * 11 * 10 * 10 * count_ones queens

/-- State threaded through the square walk of `monotonic_hash`:
(white_index, white_pawns_left, black_index, black_pawns_left). -/
abbrev PawnWalkState := Nat × Nat × Nat × Nat

/-- `Board::monotonic_hash` from `monotonic_hash.rs`, translated
operation for operation.  The white pawn scan reads bit `64 - square`
exactly as the source does (`BB_SQUARES[64 - square]`), and the `u64`
index arithmetic wraps modulo `2^64` as the release build does. -/
def monotonic_hash (b : Board) : Nat :=
  let white_pawns := b.whitePawns
  let black_pawns := b.blackPawns
  let wkey := pieces_key b.whiteKnights b.whiteBishops b.whiteRooks b.whiteQueens
  let bkey := pieces_key b.blackKnights b.blackBishops b.blackRooks b.blackQueens
  let key : Nat := wkey ||| (bkey <<< 17)
  let key := key ||| (b.castling <<< 34)
  let key := key ||| (match b.en_passant with
    | none => 0
    | some ep => (ep + 1) <<< 38)
  let white_pawns_left := count_ones white_pawns
  let black_pawns_left := count_ones black_pawns
  -- for captured_or_promoted in (1..=8).rev()
  let white_index := (List.range 8).foldl (fun acc i =>
    let captured_or_promoted := 8 - i
    if white_pawns_left > captured_or_promoted then
      wadd acc (CHOOSE_OF_48.getD white_pawns_left 0)
    else acc) 0
  let black_index := (List.range 8).foldl (fun acc i =>
    let captured_or_promoted := 8 - i
    if black_pawns_left > captured_or_promoted then
      wadd acc (CHOOSE_OF_48.getD black_pawns_left 0)
    else acc) 0
  -- for square in 8..=55
  let st : PawnWalkState := (List.range 48).foldl (fun st i =>
    let square := i + 8
    let (wi, wleft, bi, bleft) := st
    let (wi, wleft) :=
      if white_pawns &&& (1 <<< (64 - square)) ≠ 0 then
        (wadd wi (count_combinations (square - 8) wleft), wleft - 1)
      else (wi, wleft)
    let (bi, bleft) :=
      if black_pawns &&& (1 <<< square) ≠ 0 then
        (wadd bi (count_combinations (56 - square) bleft), bleft - 1)
      else (bi, bleft)
    (wi, wleft, bi, bleft)) (white_index, white_pawns_left, black_index, black_pawns_left)
  let white_index := st.1
  let black_index := st.2.2.1
  let combined :=
    wsub (wadd (wmul TOTAL_COMBINATIONS (wsub TOTAL_COMBINATIONS black_index))
               TOTAL_COMBINATIONS)
         white_index
  key ||| (combined <<< 45)

/-- A bitboard with the given square indices set. -/
def bbOf (sqs : List Nat) : Nat := sqs.foldl (fun acc s => acc ||| (1 <<< s)) 0

/-- The standard chess starting position (squares indexed a1 = 0 … h8 = 63;
all four castling rights set, no en-passant square). -/
def startBoard : Board where
  whitePawns := bbOf [8, 9, 10, 11, 12, 13, 14, 15]
  blackPawns := bbOf [48, 49, 50, 51, 52, 53, 54, 55]
  whiteKnights := bbOf [1, 6]
  blackKnights := bbOf [57, 62]
  whiteBishops := bbOf [2, 5]
  blackBishops := bbOf [58, 61]
  whiteRooks := bbOf [0, 7]
  blackRooks := bbOf [56, 63]
  whiteQueens := bbOf [3]
  blackQueens := bbOf [59]
  castling := 15
  en_passant := none

/-- The position after the legal move e2e4 from the starting position:
the white pawn moves from e2 (square 12) to e4 (square 28) and the
en-passant target square e3 (square 20) is set. -/
def boardAfterE2E4 : Board :=
  { startBoard with
    whitePawns := bbOf [8, 9, 10, 11, 28, 13, 14, 15]
    en_passant := some 20 }

/-! ## Payload types (`src/engine/transposition.rs`) -/

/-- The `IHashData` trait: a default (unused) value and a depth. -/
class IHashData (D : Type) where
  new : D
  depth : D → Int

/-- `PerftData`. -/
structure PerftData where
  depth : Int
  leaf_nodes : Nat
deriving DecidableEq

instance : IHashData PerftData := ⟨⟨0, 0⟩, PerftData.depth⟩

/-- `HashFlag`. -/
inductive HashFlag where
  | Nothing
  | Exact
  | Alpha
  | Beta
deriving DecidableEq

/-- `SearchData` (depth: i8, flag, value: i16, best_move: u16). -/
structure SearchData where
  depth : Int
  flag : HashFlag
  value : Int
  best_move : Nat
deriving DecidableEq

instance : IHashData SearchData := ⟨⟨0, .Nothing, 0, 0⟩, SearchData.depth⟩

/-- `SearchData::create`, parameterized by the crate constant
`CHECKMATE_THRESHOLD` (defined outside the cache subsystem; an opaque
positive integer here).  The two `if`s are sequential, exactly as in the
source: the second tests the value already updated by the first. -/
def SearchData.create (threshold : Int) (depth ply : Int) (flag : HashFlag)
    (value : Int) (best_move : Nat) : SearchData :=
  let v := value
  let v := if v > threshold then v + ply else v
  let v := if v < threshold then v - ply else v
  { depth := depth, flag := flag, value := v, best_move := best_move }

/-- `SearchData::get`, parameterized by `CHECKMATE_THRESHOLD` like
`SearchData.create`. -/
def SearchData.get (threshold : Int) (self : SearchData)
    (depth ply alpha beta : Int) : Option Int × Nat :=
  let value : Option Int :=
    if self.depth ≥ depth then
      match self.flag with
      | .Exact =>
          let v := self.value
          let v := if v > threshold then v - ply else v
          let v := if v < threshold then v + ply else v
          some v
      | .Alpha => if self.value ≤ alpha then some alpha else none
      | .Beta => if self.value ≥ beta then some beta else none
      | .Nothing => none
    else none
  (value, self.best_move)

/-! ## Entries and buckets -/

/-- An `Entry<V, D>`: the stored verification (already truncated to the
width of the entry) and the payload. -/
structure Entry (D : Type) where
  verification : Nat
  data : D
deriving DecidableEq

/-- A `Bucket`: a fixed array of `ENTRIES_PER_BUCKET = 4` entries. -/
structure Bucket (D : Type) where
  e0 : Entry D
  e1 : Entry D
  e2 : Entry D
  e3 : Entry D
deriving DecidableEq

def ENTRIES_PER_BUCKET : Nat := 4
def BUCKETS_FOR_PARTIAL_HASH : Nat := 1 <<< 32
def MIN_BUCKETS_PER_TABLE : Nat := 1
def MEGABYTE : Nat := 1024 * 1024

namespace Bucket

variable {D : Type} [IHashData D]

/-- `Bucket::new()`: four zero-verification entries with default payload. -/
def new : Bucket D := ⟨⟨0, IHashData.new⟩, ⟨0, IHashData.new⟩, ⟨0, IHashData.new⟩, ⟨0, IHashData.new⟩⟩

/-- Read the entry at index `i` (indices 0..3 occur in the source). -/
def get (b : Bucket D) : Nat → Entry D
  | 0 => b.e0
  | 1 => b.e1
  | 2 => b.e2
  | _ => b.e3

/-- Write the entry at index `i`. -/
def set (b : Bucket D) (i : Nat) (e : Entry D) : Bucket D :=
  match i with
  | 0 => { b with e0 := e }
  | 1 => { b with e1 := e }
  | 2 => { b with e2 := e }
  | _ => { b with e3 := e }

/-- `Bucket::store`.  `width` is the truncation modulus of the
verification type of the entry (`2^64` for `Entry<u64, D>`, `2^32` for `Entry<u32, D>`).
The slot-selection loop is unrolled: as in the source, the depth of each stored
entry is compared against the depth of the *incoming* data, and the last
index that passes wins.  Returns the updated bucket, the updated
`used_entries`, and the stored flag. -/
def store (width : Nat) (b : Bucket D) (verification : Nat) (data : D)
    (used_entries : Nat) (overwrite : Bool) : Bucket D × Nat × Bool :=
  let idx := 0
  let idx := if IHashData.depth (b.get 1).data < IHashData.depth data then 1 else idx
  let idx := if IHashData.depth (b.get 2).data < IHashData.depth data then 2 else idx
  let idx := if IHashData.depth (b.get 3).data < IHashData.depth data then 3 else idx
  if (b.get idx).verification = 0 then
    (b.set idx ⟨verification % width, data⟩, used_entries + 1, true)
  else if !overwrite then
    (b, used_entries, false)
  else
    (b.set idx ⟨verification % width, data⟩, used_entries, true)

/-- `Bucket::find`: linear scan for the truncated verification. -/
def find (width : Nat) (b : Bucket D) (verification : Nat) : Option D :=
  let v := verification % width
  if b.e0.verification = v then some b.e0.data
  else if b.e1.verification = v then some b.e1.data
  else if b.e2.verification = v then some b.e2.data
  else if b.e3.verification = v then some b.e3.data
  else none

end Bucket

/-! ## The inner transposition table `TT` -/

/-- `TTCore<D>`: `FullHash` buckets store 64-bit verifications, `HalfHash`
buckets store 32-bit verifications.  (The truncation width is applied by
the operations; the bucket representation is shared.) -/
inductive TTCore (D : Type) where
  | FullHash (buckets : List (Bucket D))
  | HalfHash (buckets : List (Bucket D))
deriving DecidableEq

/-- The sizes the Rust compiler assigns to the relevant types; they enter
only through `size_of` in the byte accounting. -/
structure SizeModel where
  rehashableBucket : Nat
  nonRehashableBucket : Nat
  ttcore : Nat
deriving DecidableEq

/-- A size model with the layout sizes of `Bucket<Entry<u64, SearchData>>`,
`Bucket<Entry<u32, SearchData>>` and `TTCore<SearchData>` on x86-64. -/
def stdSizes : SizeModel := ⟨64, 48, 88⟩

namespace TTCore

variable {D : Type} [IHashData D]

/-- `TTCore::len`. -/
def len : TTCore D → Nat
  | .FullHash l => l.length
  | .HalfHash l => l.length

/-- `TTCore::size_bytes`; the `FullHash` arm uses `saturating_sub` of the
inline capacity `MIN_BUCKETS_PER_TABLE`, which is `Nat` subtraction. -/
def size_bytes (sm : SizeModel) : TTCore D → Nat
  | .FullHash l => sm.ttcore + (l.length - MIN_BUCKETS_PER_TABLE) * sm.rehashableBucket
  | .HalfHash l => sm.ttcore + l.length * sm.nonRehashableBucket

/-- `TTCore::calculate_index`. -/
def calculate_index (t : TTCore D) (zobrist_key : Nat) : Nat :=
  zobrist_key % t.len

end TTCore

/-- `TT<D>`: the table core plus the `used_entries` counter. -/
structure TT (D : Type) where
  tt : TTCore D
  used_entries : Nat
deriving DecidableEq

namespace TT

variable {D : Type} [IHashData D]

/-- `TT::new_with_buckets`, translated with the branch selection of the source:
bucket counts `≥ BUCKETS_FOR_PARTIAL_HASH` build the `FullHash` variant and
smaller counts build the `HalfHash` variant. -/
def new_with_buckets (buckets : Nat) : TT D :=
  if buckets ≥ BUCKETS_FOR_PARTIAL_HASH then
    { tt := .FullHash (List.replicate buckets Bucket.new), used_entries := 0 }
  else
    { tt := .HalfHash (List.replicate buckets Bucket.new), used_entries := 0 }

/-- `TT::calculate_verification`: the full zobrist key. -/
def calculate_verification (zobrist_key : Nat) : Nat := zobrist_key

/-- `TT::calculate_init_buckets`. -/
def calculate_init_buckets (sm : SizeModel) (megabytes : Nat) : Nat :=
  megabytes * MEGABYTE / sm.rehashableBucket

/-- Whether the table currently is the `HalfHash` (32-bit verification)
variant. -/
def isHalfHash : TT D → Bool
  | ⟨.HalfHash _, _⟩ => true
  | _ => false

/-- Whether the table currently is the `FullHash` (64-bit verification)
variant. -/
def isFullHash : TT D → Bool
  | ⟨.FullHash _, _⟩ => true
  | _ => false

/-- The `new_size_bytes` expression of `TT::resize_to_bucket_count`.  The
`usize` subtraction `buckets - MIN_BUCKETS_PER_TABLE` and the surrounding
arithmetic wrap modulo `2^64` as in the release build (visible only for
`buckets = 0`). -/
def newSizeBytes (sm : SizeModel) (buckets : Nat) : Nat :=
  (sm.ttcore +
    (if buckets ≥ BUCKETS_FOR_PARTIAL_HASH then
      buckets * sm.nonRehashableBucket
    else
      wsub buckets MIN_BUCKETS_PER_TABLE * sm.rehashableBucket)) % U64

/-- One step of the rehash walk of `TT::resize_to_bucket_count`: processes
entry `j` of old bucket `index`, moving it into the freshly appended tail
when its new index differs.  (`buckets` is the new bucket count,
`old_bucket_count` the old one; the source writes through
`new_buckets[new_index - old_bucket_count]`, a slice starting at
`old_bucket_count`.  When `new_index < old_bucket_count` the source panics
on the slice bound; that input is modelled as a no-op write via
`List.set` out of range.) -/
def rehashEntry (buckets old_bucket_count : Nat)
    (st : List (Bucket D) × Nat) (index j : Nat) : List (Bucket D) × Nat :=
  let (bl, used) := st
  let b := bl.getD index Bucket.new
  let e := b.get j
  if e.verification ≠ 0 then
    let zobrist_key := e.verification
    let new_index := zobrist_key % buckets
    if new_index ≠ index then
      let target := old_bucket_count + (new_index - old_bucket_count)
      let tb := bl.getD target Bucket.new
      let (tb', used', _) := Bucket.store U64 tb e.verification e.data used false
      let bl := bl.set target tb'
      let bl := bl.set index ((bl.getD index Bucket.new).set j ⟨0, IHashData.new⟩)
      (bl, used')
    else st
  else st

/-- `TT::resize_to_bucket_count`: byte accounting against the signed
`room_to_grow` counter, then the variant logic (switch to `HalfHash` at
`BUCKETS_FOR_PARTIAL_HASH`, grow-and-rehash a `FullHash` table on a strict
increase, otherwise replace with a fresh `FullHash` table).  Returns the
updated table, the updated counter and the `bool` result. -/
def resize_to_bucket_count (sm : SizeModel) (t : TT D) (buckets : Nat)
    (room_to_grow : Int) : TT D × Int × Bool :=
  let old_bucket_count := t.tt.len
  let old_size_bytes := t.tt.size_bytes sm
  let new_size_bytes := newSizeBytes sm buckets
  let proceed : Int → TT D × Int × Bool := fun room =>
    if buckets ≥ BUCKETS_FOR_PARTIAL_HASH then
      (⟨.HalfHash (List.replicate buckets Bucket.new), 0⟩, room, true)
    else if buckets > old_bucket_count then
      match t.tt with
      | .FullHash l =>
          let grown := l ++ List.replicate (buckets - old_bucket_count) Bucket.new
          let walked := (List.range old_bucket_count).foldl (fun st index =>
            (List.range ENTRIES_PER_BUCKET).foldl (fun st j =>
              rehashEntry buckets old_bucket_count st index j) st)
            (grown, t.used_entries)
          (⟨.FullHash walked.1, walked.2⟩, room, true)
      | .HalfHash _ =>
          (⟨.FullHash (List.replicate buckets Bucket.new), 0⟩, room, true)
    else
      (⟨.FullHash (List.replicate buckets Bucket.new), 0⟩, room, true)
  if new_size_bytes > old_size_bytes then
    let bytes_added : Int := (new_size_bytes : Int) - (old_size_bytes : Int)
    if room_to_grow - bytes_added < 0 then
      (t, room_to_grow, false)
    else
      proceed (room_to_grow - bytes_added)
  else
    proceed (room_to_grow + ((old_size_bytes : Int) - (new_size_bytes : Int)))

/-- The try-store-or-grow loop of `TT::insert`, fuelled (the source loop
terminates because each iteration at least doubles the bucket count; the
fuel used by `TT.insert` is never exhausted for tables of positive size).
Returns the table, the budget counter, and whether the store already
succeeded (`false` means: fall through to the forced store). -/
def insertLoop (sm : SizeModel) :
    Nat → TT D → Int → Nat → D → TT D × Int × Bool
  | 0, t, room, _, _ => (t, room, false)
  | fuel + 1, t, room, zobrist_key, data =>
    match t.tt with
    | .HalfHash _ => (t, room, false)
    | .FullHash l =>
        let index := zobrist_key % l.length
        let b := l.getD index Bucket.new
        let (b', used', stored) :=
          Bucket.store U64 b (calculate_verification zobrist_key) data t.used_entries false
        if stored then
          (⟨.FullHash (l.set index b'), used'⟩, room, true)
        else
          -- EXPANSION_FACTORS = [2]: a single doubling attempt via checked_mul
          if l.length * 2 < U64 then
            let r := resize_to_bucket_count sm t (l.length * 2) room
            if r.2.2 then
              insertLoop sm fuel r.1 r.2.1 zobrist_key data
            else
              (r.1, r.2.1, false)
          else
            (t, room, false)

/-- `TT::insert`: try-store-or-grow on the `FullHash` variant, then the
forced overwrite at the (re)computed index. -/
def insert (sm : SizeModel) (t : TT D) (zobrist_key : Nat) (data : D)
    (room_to_grow : Int) : TT D × Int :=
  if t.tt.len > 0 then
    let verification := calculate_verification zobrist_key
    let r := insertLoop sm 100 t room_to_grow zobrist_key data
    let t' := r.1
    let room' := r.2.1
    if r.2.2 then (t', room')
    else
      let index := zobrist_key % t'.tt.len
      match t'.tt with
      | .FullHash l =>
          let b := l.getD index Bucket.new
          let s := Bucket.store U64 b verification data t'.used_entries true
          (⟨.FullHash (l.set index s.1), s.2.1⟩, room')
      | .HalfHash l =>
          let b := l.getD index Bucket.new
          let s := Bucket.store U32 b verification data t'.used_entries true
          (⟨.HalfHash (l.set index s.1), s.2.1⟩, room')
  else (t, room_to_grow)

/-- `TT::probe`. -/
def probe (t : TT D) (zobrist_key : Nat) : Option D :=
  if t.tt.len > 0 then
    let index := t.tt.calculate_index zobrist_key
    let verification := calculate_verification zobrist_key
    match t.tt with
    | .FullHash l => (l.getD index Bucket.new).find U64 verification
    | .HalfHash l => (l.getD index Bucket.new).find U32 verification
  else none

end TT

/-! ## The outer two-level cache `TTree` -/

/-- `TTree`: the outer map (modelled as an association list keyed by the
`u32` monotonic-hash digest), the maximum size and the remaining-bytes
counter. -/
structure TTree where
  map : List (Nat × TT SearchData)
  max_size : Nat
  room_to_grow : Int
deriving DecidableEq

/-- Replace the value stored under `k` in an association list. -/
def assocSet (m : List (Nat × TT SearchData)) (k : Nat) (v : TT SearchData) :
    List (Nat × TT SearchData) :=
  m.map (fun p => if p.1 = k then (k, v) else p)

namespace TTree

/-- `TTree::new`. -/
def new (size_mb : Nat) : TTree :=
  { map := [], max_size := size_mb * MEGABYTE,
    room_to_grow := (size_mb * MEGABYTE : Nat) }

/-- `TTree::insert`.  The board enters only through its monotonic-hash
digest and zobrist key, passed explicitly here.  The vacant arm builds the
one-bucket table with the entry written directly into slot 0 and reserves
its byte cost; on refusal the insert is dropped. -/
def insert (sm : SizeModel) (tr : TTree) (digest zobrist_key : Nat)
    (value : SearchData) : TTree :=
  match tr.map.lookup digest with
  | some t =>
      let r := TT.insert sm t zobrist_key value tr.room_to_grow
      { tr with map := assocSet tr.map digest r.1, room_to_grow := r.2 }
  | none =>
      let new_buckets : List (Bucket SearchData) :=
        List.replicate MIN_BUCKETS_PER_TABLE Bucket.new
      let index := zobrist_key % MIN_BUCKETS_PER_TABLE
      let b := (new_buckets.getD index Bucket.new).set 0 ⟨zobrist_key, value⟩
      let new_table : TT SearchData := ⟨.FullHash (new_buckets.set index b), 1⟩
      let new_table_size : Int := new_table.tt.size_bytes sm
      if tr.room_to_grow - new_table_size < 0 then tr
      else
        { tr with map := tr.map ++ [(digest, new_table)],
                  room_to_grow := tr.room_to_grow - new_table_size }

/-- `TTree::probe`. -/
def probe (tr : TTree) (digest zobrist_key : Nat) : Option SearchData :=
  match tr.map.lookup digest with
  | some t => t.probe zobrist_key
  | none => none

end TTree

/-- The one-bucket table used to exhibit the rehash data loss of claim C6:
three live entries with verifications 1, 3, 5 (all odd, so all move to
bucket 1 when the table grows from one to two buckets). -/
def lossTable : TT PerftData :=
  ⟨.FullHash [⟨⟨1, ⟨5, 0⟩⟩, ⟨3, ⟨1, 0⟩⟩, ⟨5, ⟨2, 0⟩⟩, ⟨0, ⟨0, 0⟩⟩⟩], 3⟩

/-- The two-bucket table used for claim C10: one live entry with
verification 2 and payload depth 4 in bucket 0. -/
def shrinkTable : TT PerftData :=
  ⟨.FullHash [⟨⟨2, ⟨4, 0⟩⟩, ⟨0, ⟨0, 0⟩⟩, ⟨0, ⟨0, 0⟩⟩, ⟨0, ⟨0, 0⟩⟩⟩, Bucket.new], 1⟩

/-! ## Helper lemmas -/

/-- `getD` on a replicated list with the replicated element as default. -/
theorem getD_replicate {α : Type} (n i : Nat) (x : α) :
    (List.replicate n x).getD i x = x := by
  induction n generalizing i with
  | zero => simp [List.getD]
  | succ n ih =>
      cases i with
      | zero => simp [List.replicate]
      | succ i => simp only [List.replicate, List.getD_cons_succ]; exact ih i

/-- A probe of an all-empty bucket with a verification that is nonzero
after truncation misses. -/
theorem find_new_eq_none {D : Type} [IHashData D] (width k : Nat)
    (h : k % width ≠ 0) : Bucket.find width (Bucket.new : Bucket D) k = none := by
  have h0 : ¬ (0 = k % width) := fun h2 => h h2.symm
  simp [Bucket.find, Bucket.new, h0]

/-! ## Claims -/

/-- Claim C1: the spec asserts that a probe can never return a payload
inserted under a different zobrist key.  `TT::new_with_buckets(1)` builds
the 32-bit-verification `HalfHash` variant (the branch is inverted with
respect to `resize_to_bucket_count`), so inserting a payload under zobrist
key 1 and probing with the different key `2^32 + 1` (same low 32 bits,
same bucket) returns that payload: a false positive. -/
theorem c1_probe_false_positive :
    TT.probe (TT.insert stdSizes (TT.new_with_buckets 1) 1 ⟨5, 99⟩ 1000000000).1
        (2 ^ 32 + 1)
      = some (⟨5, 99⟩ : PerftData) := by decide

/-- Claim C2: the spec asserts that `monotonic_hash` never increases along
a legal move, strictly decreasing on pawn moves.  The legal pawn move e2e4
from the starting position makes the hash strictly larger, contradicting
the claim and the doc comment of `monotonic_hash` itself. -/
theorem c2_monotonic_hash_increases_on_e2e4 :
    monotonic_hash startBoard < monotonic_hash boardAfterE2E4 := by decide

/-- Claim C3: `Bucket::store` is claimed to select the minimum-depth slot,
so an unused slot is always preferred.  On the bucket with entries of
depths (0 unused, 1, 2, 3) and an incoming payload of depth 5 the source
selects slot 3 (the last slot whose depth is below the *incoming* depth,
because the comparison reads `data.depth()` instead of the running
minimum), finds it occupied, and returns false without storing — even
though slot 0 is unused. -/
theorem c3_store_misses_unused_slot :
    Bucket.store U64
        (⟨⟨0, ⟨0, 0⟩⟩, ⟨7, ⟨1, 0⟩⟩, ⟨8, ⟨2, 0⟩⟩, ⟨9, ⟨3, 0⟩⟩⟩ : Bucket PerftData)
        5 ⟨5, 0⟩ 3 false
      = (⟨⟨0, ⟨0, 0⟩⟩, ⟨7, ⟨1, 0⟩⟩, ⟨8, ⟨2, 0⟩⟩, ⟨9, ⟨3, 0⟩⟩⟩, 3, false) := by decide

/-- Claim C4, counterexample: on a fresh 1 MB cache, inserting a depth-5
payload under digest 0 / zobrist key 1, then three depth-9 payloads and a
depth-1 payload under the same key, makes `probe` return the depth-1
payload (the depth-5 entry is pushed behind it by a lossy grow-rehash),
contradicting the claim that a later probe returns only `None` or a
payload of depth at least 5. -/
theorem c4_later_insert_yields_lower_depth :
    TTree.probe
      (TTree.insert stdSizes (TTree.insert stdSizes (TTree.insert stdSizes
        (TTree.insert stdSizes (TTree.insert stdSizes (TTree.new 1) 0 1 ⟨5, .Exact, 30, 0⟩)
          0 1 ⟨9, .Exact, 0, 0⟩) 0 1 ⟨9, .Exact, 0, 0⟩) 0 1 ⟨9, .Exact, 0, 0⟩)
        0 1 ⟨1, .Exact, 7, 0⟩) 0 1
      = some ⟨1, .Exact, 7, 0⟩ := by decide

/-- Claim C4, amended: on a freshly created cache whose byte budget covers
one table, a single insert followed by a probe of the same board returns
exactly the inserted payload. -/
theorem c4_fresh_round_trip (sm : SizeModel) (mb digest zobrist_key : Nat)
    (x : SearchData) (hk : zobrist_key < U64) (_hd : 1 ≤ x.depth)
    (hroom : (sm.ttcore : Int) ≤ ((mb * MEGABYTE : Nat) : Int)) :
    TTree.probe (TTree.insert sm (TTree.new mb) digest zobrist_key x) digest zobrist_key
      = some x := by
  have hmod : zobrist_key % U64 = zobrist_key := Nat.mod_eq_of_lt hk
  have hcast : ((mb * MEGABYTE : Nat) : Int) = (mb : Int) * ((MEGABYTE : Nat) : Int) := by
    push_cast
    ring
  have hcond : ¬ ((mb : Int) * ((MEGABYTE : Nat) : Int) < ((sm.ttcore : Nat) : Int)) := by
    rw [← hcast]
    omega
  simp [TTree.insert, TTree.new, TTree.probe, TT.probe, TTCore.len,
        TTCore.calculate_index, TT.calculate_verification, MIN_BUCKETS_PER_TABLE,
        List.replicate, TTCore.size_bytes, Bucket.set, Bucket.new, Bucket.find,
        List.lookup, Nat.mod_one, hmod, hcond]

/-- Witness for the amended claim C4 at concrete inputs. -/
theorem c4_fresh_round_trip_witness :
    TTree.probe (TTree.insert stdSizes (TTree.new 1) 0 1 ⟨5, .Exact, 30, 0⟩) 0 1
      = some ⟨5, .Exact, 30, 0⟩ :=
  c4_fresh_round_trip stdSizes 1 0 1 ⟨5, .Exact, 30, 0⟩ (by decide) (by decide)
    (by decide)

/-- Claim C5: the spec asserts that construction yields the Narrow
(32-bit) variant exactly when the requested bucket count is at least
`2^32`.  `TT::new_with_buckets(1)` yields the Narrow (`HalfHash`) variant
for a count below `2^32`: the two branches are swapped. -/
theorem c5_new_with_buckets_narrow_below_partial :
    TT.isHalfHash (TT.new_with_buckets (D := PerftData) 1) = true := by decide

/-- Claim C6: growing is claimed to preserve every live entry.  Growing
`lossTable` from one to two buckets succeeds, but the entry with
verification 5 (payload depth 2) is silently dropped: the rehash re-stores
entries through the mis-selecting `Bucket::store`, ignores its `false`
return, and zeroes the old slot unconditionally. -/
theorem c6_grow_drops_live_entry :
    TT.probe lossTable 5 = some ⟨2, 0⟩ ∧
    (TT.resize_to_bucket_count stdSizes lossTable 2 1000000000).2.2 = true ∧
    TT.probe (TT.resize_to_bucket_count stdSizes lossTable 2 1000000000).1 5
      = none := by decide

/-- Claim C7: `count_combinations` is claimed to compute exact binomial
coefficients for all `0 ≤ r ≤ n ≤ 48`; at `n = 48, r = 2` it returns 1104
while `C(48, 2) = 1128`, because the source truncates each factor
`(n - i + 1) / i` before multiplying. -/
theorem c7_count_combinations_not_binomial :
    count_combinations 48 2 = 1104 ∧ Nat.choose 48 2 = 1128 := by decide

/-- Claim C8: budget reservations are atomic in their effect.  For a
growth resize, when the counter holds at least the byte delta the resize
proceeds and the counter drops by exactly that delta; otherwise the resize
returns false with the table and the counter unchanged.  For the vacant
arm of `TTree::insert`, when the counter holds at least the byte cost of
the fresh one-bucket table the entry is installed and the counter drops by
exactly that cost; otherwise the insert is dropped silently with the map
and the counter unchanged. -/
theorem c8_budget_reservation_atomic (sm : SizeModel) (t : TT SearchData)
    (buckets : Nat) (room : Int) (tr : TTree) (digest zobrist_key : Nat)
    (v : SearchData)
    (hgrow : t.tt.size_bytes sm < TT.newSizeBytes sm buckets)
    (hvac : tr.map.lookup digest = none) :
    ((room < (TT.newSizeBytes sm buckets : Int) - (t.tt.size_bytes sm : Int) →
        TT.resize_to_bucket_count sm t buckets room = (t, room, false)) ∧
     ((TT.newSizeBytes sm buckets : Int) - (t.tt.size_bytes sm : Int) ≤ room →
        (TT.resize_to_bucket_count sm t buckets room).2.1
            = room - ((TT.newSizeBytes sm buckets : Int) - (t.tt.size_bytes sm : Int)) ∧
        (TT.resize_to_bucket_count sm t buckets room).2.2 = true)) ∧
    ((tr.room_to_grow < (sm.ttcore : Int) →
        TTree.insert sm tr digest zobrist_key v = tr) ∧
     ((sm.ttcore : Int) ≤ tr.room_to_grow →
        (TTree.insert sm tr digest zobrist_key v).room_to_grow
            = tr.room_to_grow - (sm.ttcore : Int) ∧
        (TTree.insert sm tr digest zobrist_key v).map.length
            = tr.map.length + 1)) := by
  refine ⟨⟨?_, ?_⟩, ?_, ?_⟩
  · intro hlt
    rw [TT.resize_to_bucket_count, if_pos hgrow, if_pos (by omega)]
  · intro hge
    rw [TT.resize_to_bucket_count, if_pos hgrow, if_neg (by omega)]
    constructor
    · split
      · rfl
      · split
        · split <;> rfl
        · rfl
    · split
      · rfl
      · split
        · split <;> rfl
        · rfl
  · intro hlt
    rw [TTree.insert, hvac]
    simp only [TTCore.size_bytes, MIN_BUCKETS_PER_TABLE, List.length_set,
      List.length_replicate, Nat.sub_self, Nat.zero_mul, Nat.add_zero]
    rw [if_pos (by omega)]
  · intro hge
    rw [TTree.insert, hvac]
    simp only [TTCore.size_bytes, MIN_BUCKETS_PER_TABLE, List.length_set,
      List.length_replicate, Nat.sub_self, Nat.zero_mul, Nat.add_zero]
    rw [if_neg (by omega)]
    simp

/-- Witness for C8: a refused growth reservation at a concrete small
counter, and an accepted fresh-table reservation on a fresh 1 MB cache. -/
theorem c8_budget_reservation_atomic_witness :
    TT.resize_to_bucket_count stdSizes (⟨.FullHash [Bucket.new], 0⟩ : TT SearchData) 2 10
        = (⟨.FullHash [Bucket.new], 0⟩, 10, false) ∧
    (TTree.insert stdSizes (TTree.new 1) 0 1 ⟨3, .Exact, 0, 0⟩).room_to_grow
        = ((1 * MEGABYTE : Nat) : Int) - (stdSizes.ttcore : Int) := by
  constructor
  · exact (c8_budget_reservation_atomic stdSizes ⟨.FullHash [Bucket.new], 0⟩ 2 10
      (TTree.new 1) 0 1 ⟨3, .Exact, 0, 0⟩ (by decide) (by decide)).1.1 (by decide)
  · exact ((c8_budget_reservation_atomic stdSizes ⟨.FullHash [Bucket.new], 0⟩ 2 10
      (TTree.new 1) 0 1 ⟨3, .Exact, 0, 0⟩ (by decide) (by decide)).2.2 (by decide)).1

/-- Claim C9: the spec asserts that values inside the checkmate threshold
are stored unchanged.  Because the second comparison in
`SearchData::create` reads `v < CHECKMATE_THRESHOLD` instead of
`v < -CHECKMATE_THRESHOLD`, every value at most the threshold has the ply
subtracted: storing value 0 at ply 1 records -1, for every positive
threshold. -/
theorem c9_create_shifts_ordinary_value (threshold : Int) (h : 0 < threshold) :
    (SearchData.create threshold 5 1 .Exact 0 0).value = -1 := by
  have h1 : ¬ ((0 : Int) > threshold) := by omega
  have h2 : (0 : Int) < threshold := h
  simp [SearchData.create, h1, h2]

/-- Witness for C9 at the concrete threshold 24500. -/
theorem c9_create_shifts_ordinary_value_witness :
    (0 : Int) < 24500 ∧
    (SearchData.create 24500 5 1 .Exact 0 0).value = -1 :=
  ⟨by decide, c9_create_shifts_ordinary_value 24500 (by decide)⟩

/-- Claim C10, counterexample: after shrinking `shrinkTable` from two
buckets to one, the stored entry is gone, but a probe for zobrist key 0 is
answered with the default payload (an all-zero entry matches verification
0), so it is not true that every subsequent probe misses. -/
theorem c10_probe_zero_hits_after_shrink :
    (TT.resize_to_bucket_count stdSizes shrinkTable 1 0).2.2 = true ∧
    TT.probe (TT.resize_to_bucket_count stdSizes shrinkTable 1 0).1 2 = none ∧
    TT.probe (TT.resize_to_bucket_count stdSizes shrinkTable 1 0).1 0
      = some (⟨0, 0⟩ : PerftData) := by decide

/-- Claim C10, amended: a resize to a bucket count that is not larger than
the current one (at least 1, below `2^32`, and not needing a byte
reservation) replaces the table by a fresh all-empty `FullHash` table of
the new size with `used_entries` 0, returns true, and afterwards every
probe for a key that is nonzero modulo `2^64` misses (a probe for key 0 is
answered by the default payload of an unused slot). -/
theorem c10_shrink_discards_everything {D : Type} [IHashData D] (sm : SizeModel)
    (t : TT D) (buckets : Nat) (room : Int)
    (h1 : 1 ≤ buckets) (h2 : buckets ≤ t.tt.len)
    (h3 : buckets < BUCKETS_FOR_PARTIAL_HASH)
    (h4 : TT.newSizeBytes sm buckets ≤ t.tt.size_bytes sm) :
    (TT.resize_to_bucket_count sm t buckets room).1
        = ⟨.FullHash (List.replicate buckets Bucket.new), 0⟩ ∧
    (TT.resize_to_bucket_count sm t buckets room).2.2 = true ∧
    ∀ k : Nat, k % U64 ≠ 0 →
      TT.probe (TT.resize_to_bucket_count sm t buckets room).1 k = none := by
  have hres : TT.resize_to_bucket_count sm t buckets room
      = (⟨.FullHash (List.replicate buckets Bucket.new), 0⟩,
         room + ((t.tt.size_bytes sm : Int) - (TT.newSizeBytes sm buckets : Int)),
         true) := by
    rw [TT.resize_to_bucket_count, if_neg (by omega)]
    beta_reduce
    rw [if_neg (by omega), if_neg (by omega)]
  refine ⟨by rw [hres], by rw [hres], ?_⟩
  intro k hk
  rw [hres]
  show TT.probe ⟨.FullHash (List.replicate buckets Bucket.new), 0⟩ k = none
  rw [TT.probe]
  simp only [TTCore.len, List.length_replicate, TTCore.calculate_index]
  rw [if_pos (by omega)]
  rw [getD_replicate]
  exact find_new_eq_none U64 k hk

/-- Witness for the amended claim C10 at concrete inputs. -/
theorem c10_shrink_discards_everything_witness :
    TT.probe (TT.resize_to_bucket_count stdSizes shrinkTable 1 0).1 7 = none :=
  (c10_shrink_discards_everything stdSizes shrinkTable 1 0 (by decide) (by decide)
    (by decide) (by decide)).2.2 7 (by decide)

end Rustic
